import Mathlib

/-!
Shallow embedding of the cupdance audio core (engine, oscillator, LFO,
envelope, ladder filter, and the five synth voices), translated from
src/cupdance/audio.  Fallible Python code (exceptions such as the
IndexError raised by an empty numpy slice access, or ZeroDivisionError)
is modelled with Option: a none result marks a raised exception.
Machine floats are idealised as real numbers; the AudioEngine mixing
arithmetic is polymorphic over a linear ordered field so that concrete
counterexamples can be evaluated over the rationals.
-/

namespace Cupdance

/-- np.clip of a scalar to the interval from -1 to 1: lower bound first,
then upper bound, as numpy does. -/
def clip1 {α : Type} [LinearOrder α] [Neg α] [One α] (x : α) : α :=
  min (max x (-1)) 1

section Engine

variable {α : Type} [LinearOrderedField α]

/-- The audio engine sees a synth only through its generate method for a
block: given a frame count it either returns the stereo chunk or raises
(none). -/
def Gen (α : Type) : Type :=
  ℕ → Option (List (α × α))

/-- State of AudioEngine (engine.py): master volume, the active synth
slots (a None slot is a placeholder appended by set_synth), per-channel
mutes and volumes, the visualization buffer and the global mute flag. -/
structure AudioEngine (α : Type) where
  masterVol : α
  activeSynths : List (Option (Gen α))
  mutes : List Bool
  vols : List α
  vizBuffer : List α
  globalMute : Bool

/-- AudioEngine.toggle_global_mute: flips the flag. -/
def toggleGlobalMute (e : AudioEngine α) : AudioEngine α :=
  { e with globalMute := !e.globalMute }

/-- The mixing loop of AudioEngine.callback, one synth slot at a time
with its running index.  A muted channel (index below 4) is skipped; a
None slot raises AttributeError when its generate attribute is accessed;
a generate raise, or a chunk whose length does not broadcast against the
frames-by-2 mix buffer, aborts the whole try block (none). -/
def mixAux (frames : ℕ) (mutes : List Bool) (vols : List α) :
    ℕ → List (Option (Gen α)) → List (α × α) → Option (List (α × α))
  | _, [], acc => some acc
  | i, slot :: rest, acc =>
    if i < 4 ∧ mutes.getD i false = true then
      mixAux frames mutes vols (i + 1) rest acc
    else
      match slot with
      | none => none
      | some g =>
        match g frames with
        | none => none
        | some chunk =>
          if chunk.length = frames then
            mixAux frames mutes vols (i + 1) rest
              (List.zipWith
                (fun p q =>
                  (p.1 + q.1 * (if i < 4 then vols.getD i 1 else 1),
                   p.2 + q.2 * (if i < 4 then vols.getD i 1 else 1)))
                acc chunk)
          else none

/-- AudioEngine.callback: the output buffer is cleared to zero; under
global mute the viz buffer is zeroed and the callback returns; otherwise,
when the non-blocking lock acquisition succeeds, the channels are mixed,
scaled by the master volume, clipped and written out, and the viz buffer
becomes the per-frame mono average; an exception inside the try block
leaves the zeroed output buffer and the previous viz buffer; when the
lock is contended the zeroed buffer is emitted as silence.  The result
is the pair of the output buffer and the new viz buffer. -/
def callback (lockAcquired : Bool) (e : AudioEngine α) (frames : ℕ) :
    List (α × α) × List α :=
  if e.globalMute then
    (List.replicate frames (0, 0), List.replicate (min frames 512) 0)
  else if lockAcquired then
    match mixAux frames e.mutes e.vols 0 e.activeSynths
        (List.replicate frames (0, 0)) with
    | some mixed =>
      let clipped := mixed.map (fun p =>
        (clip1 (p.1 * e.masterVol), clip1 (p.2 * e.masterVol)))
      (clipped, clipped.map (fun p => (p.1 + p.2) / 2))
    | none => (List.replicate frames (0, 0), e.vizBuffer)
  else (List.replicate frames (0, 0), e.vizBuffer)

/-- A synth slot raises for a block when accessing or running generate
fails to deliver a chunk of the requested length: the slot is None, its
generate raises, or the chunk does not match the frame count. -/
def chanRaises (slot : Option (Gen α)) (frames : ℕ) : Prop :=
  ∀ chunk, slot.bind (fun g => g frames) = some chunk →
    chunk.length ≠ frames

end Engine

/-- A healthy rational test generator: a constant half-amplitude block. -/
def goodGen : Gen ℚ :=
  fun n => some (List.replicate n (1 / 2, 1 / 2))

/-- A generator that raises inside generate. -/
def badGen : Gen ℚ :=
  fun _ => none

/-- Concrete engine state over the rationals: a healthy voice on channel
0 and a raising voice on channel 1, nothing muted. -/
def eBad : AudioEngine ℚ where
  masterVol := 4 / 5
  activeSynths := [some goodGen, some badGen]
  mutes := [false, false, false, false]
  vols := [1, 1, 1, 1]
  vizBuffer := [7]
  globalMute := false

/-- Concrete engine state used for the global mute witness. -/
def eLive : AudioEngine ℚ where
  masterVol := 4 / 5
  activeSynths := [some goodGen]
  mutes := [false, false, false, false]
  vols := [1, 1, 1, 1]
  vizBuffer := [3]
  globalMute := false

noncomputable section RealModel

open Real

/-- Python float modulo x % y, which for a positive divisor lands in the
interval from 0 (inclusive) to y (exclusive). -/
def pyMod (x y : ℝ) : ℝ :=
  x - y * ⌊x / y⌋

/-- Modulo 2 pi, as applied to the stored oscillator phase. -/
def phaseMod (x : ℝ) : ℝ :=
  pyMod x (2 * π)

/-- np.sign on a real scalar. -/
def npSign (x : ℝ) : ℝ :=
  if 0 < x then 1 else if x < 0 then -1 else 0

/-- The waveform mapping of Oscillator.next (base.py): sine, square, saw
and tri as written in the source, anything else producing zeros. -/
def oscSample (w : String) (p : ℝ) : ℝ :=
  if w = "sine" then Real.sin p
  else if w = "square" then npSign (Real.sin p)
  else if w = "saw" then 2 * (p / (2 * π) - ⌊0.5 + p / (2 * π)⌋)
  else if w = "tri" then 2 / π * Real.arcsin (Real.sin p)
  else 0

/-- Oscillator state (base.py). -/
structure Oscillator where
  sr : ℝ
  phase : ℝ
  freq : ℝ
  waveform : String

/-- Oscillator.next: the vectorised phase ramp, the stored-phase update
from the last ramp entry, and the waveform mapping.  For a zero-length
block the update reads the last entry of an empty array, an IndexError,
modelled as none. -/
def oscNext (o : Oscillator) (n : ℕ) : Option (List ℝ × Oscillator) :=
  if n = 0 then none
  else
    some
      ((List.range n).map
        (fun j : ℕ =>
          oscSample o.waveform (o.phase + (j : ℝ) * (o.freq * 2 * π / o.sr))),
       { o with
          phase :=
            phaseMod
              (o.phase + ((n : ℝ) - 1) * (o.freq * 2 * π / o.sr) +
                o.freq * 2 * π / o.sr) })

/-- LFO state (modulation.py). -/
structure LFO where
  sr : ℝ
  rate : ℝ
  waveform : String
  phase : ℝ

/-- The waveform remaps of LFO.generate, normalised to the unit
interval. -/
def lfoSample (w : String) (p : ℝ) : ℝ :=
  if w = "sine" then (Real.sin p + 1) / 2
  else if w = "triangle" then |pyMod (p / π) 2 - 1|
  else if w = "saw" then pyMod (p / (2 * π)) 1
  else if w = "square" then (if 0 < Real.sin p then 1 else 0)
  else 0

/-- LFO.generate: same phase accumulator as the oscillator, with the
increment scaled by 2 pi inside the ramp; a zero-length block raises the
same IndexError on the empty slice. -/
def lfoGenerate (l : LFO) (n : ℕ) : Option (List ℝ × LFO) :=
  if n = 0 then none
  else
    some
      ((List.range n).map
        (fun j : ℕ =>
          lfoSample l.waveform (l.phase + (j : ℝ) * (l.rate / l.sr) * (2 * π))),
       { l with
          phase :=
            phaseMod
              (l.phase + ((n : ℝ) - 1) * (l.rate / l.sr) * (2 * π) +
                l.rate / l.sr * (2 * π)) })

/-- Envelope state (base.py): the ADSR times, the sustain level, the
state tag kept as the literal Python string, the current level and the
unused time accounting field. -/
structure Envelope where
  sr : ℝ
  attack : ℝ
  decay : ℝ
  sustain : ℝ
  release : ℝ
  state : String
  level : ℝ
  timeInState : ℝ

/-- Envelope.trigger. -/
def envTrigger (e : Envelope) : Envelope :=
  { e with state := "attack", timeInState := 0 }

/-- Envelope.release_note. -/
def envReleaseNote (e : Envelope) : Envelope :=
  { e with state := "release", timeInState := 0 }

/-- One iteration of the per-sample loop body of Envelope.generate. -/
def envStep (e : Envelope) : Envelope :=
  let dt := 1 / e.sr
  if e.state = "attack" then
    let lv := e.level + dt / max e.attack 0.001
    if 1 ≤ lv then { e with level := 1, state := "decay" }
    else { e with level := lv }
  else if e.state = "decay" then
    let lv := e.level - dt / max e.decay 0.001 * (1 - e.sustain)
    if lv ≤ e.sustain then { e with level := e.sustain, state := "sustain" }
    else { e with level := lv }
  else if e.state = "sustain" then { e with level := e.sustain }
  else if e.state = "release" then
    let lv := e.level - dt / max e.release 0.001 * e.sustain
    if lv ≤ 0 then { e with level := 0, state := "idle" }
    else { e with level := lv }
  else e

/-- Envelope.generate: advance the state machine one sample at a time,
recording the level after each step. -/
def envGenerate (e : Envelope) : ℕ → List ℝ × Envelope
  | 0 => ([], e)
  | n + 1 =>
    let e1 := envStep e
    let r := envGenerate e1 n
    (e1.level :: r.1, r.2)

/-- MoogFilter state (modulation.py). -/
structure MoogFilter where
  sr : ℝ
  cutoff : ℝ
  resonance : ℝ
  y0 : ℝ
  y1 : ℝ
  y2 : ℝ
  y3 : ℝ

/-- MoogFilter.set_cutoff: clamp to the documented safe range. -/
def setCutoff (f : MoogFilter) (freq : ℝ) : MoogFilter :=
  { f with cutoff := max 20 (min freq (f.sr * 0.49)) }

/-- MoogFilter.set_resonance: clamp to the unit-ish safe range. -/
def setResonance (f : MoogFilter) (res : ℝ) : MoogFilter :=
  { f with resonance := max 0 (min res 0.95) }

/-- The per-sample body of MoogFilter.process: resonant feedback from
the last stage, tanh soft clip of the stage input, then the four
cascaded one-pole stages. -/
def filterStep (g : ℝ) (f : MoogFilter) (x : ℝ) : MoogFilter :=
  let fb := f.resonance * 4 * f.y3
  let z0 := f.y0 + g * (Real.tanh (x - fb) - f.y0)
  let z1 := f.y1 + g * (z0 - f.y1)
  let z2 := f.y2 + g * (z1 - f.y2)
  let z3 := f.y3 + g * (z2 - f.y3)
  { f with y0 := z0, y1 := z1, y2 := z2, y3 := z3 }

/-- The loop of MoogFilter.process, emitting the last stage after each
step. -/
def filterRun (g : ℝ) (f : MoogFilter) : List ℝ → List ℝ × MoogFilter
  | [] => ([], f)
  | x :: xs =>
    let f1 := filterStep g f x
    let r := filterRun g f1 xs
    (f1.y3 :: r.1, r.2)

/-- MoogFilter.process: the one-pole coefficient is computed once from
the stored cutoff, then the loop runs over the block. -/
def filterProcess (f : MoogFilter) (xs : List ℝ) : List ℝ × MoogFilter :=
  filterRun (f.cutoff / f.sr * 1.8) f xs

/-- ChipSynth state (chip.py). -/
structure ChipSynth where
  sr : ℝ
  gain : ℝ
  osc1 : Oscillator
  osc2 : Oscillator
  params : List (String × ℝ)

/-- ChipSynth.generate: average the two oscillators, clip, duplicate to
dual mono and scale by the master gain. -/
def chipGenerate (s : ChipSynth) (n : ℕ) : Option (List (ℝ × ℝ) × ChipSynth) :=
  (oscNext s.osc1 n).bind fun r1 =>
    (oscNext s.osc2 n).map fun r2 =>
      let mix := List.zipWith (fun a b => clip1 ((a + b) * 0.5)) r1.1 r2.1
      (mix.map (fun x => (x * s.gain, x * s.gain)),
       { s with osc1 := r1.2, osc2 := r2.2 })

/-- RetroSynth state (retro.py). -/
structure RetroSynth where
  sr : ℝ
  gain : ℝ
  osc1 : Oscillator
  osc2 : Oscillator
  params : List (String × ℝ)

/-- RetroSynth.generate: the detuned oscillators scaled by 0.7 go hard
left and hard right, then the master gain. -/
def retroGenerate (s : RetroSynth) (n : ℕ) :
    Option (List (ℝ × ℝ) × RetroSynth) :=
  (oscNext s.osc1 n).bind fun r1 =>
    (oscNext s.osc2 n).map fun r2 =>
      (List.zipWith (fun a b => (a * 0.7 * s.gain, b * 0.7 * s.gain)) r1.1 r2.1,
       { s with osc1 := r1.2, osc2 := r2.2 })

/-- ExoticSynth state (exotic.py). -/
structure ExoticSynth where
  sr : ℝ
  gain : ℝ
  carrier : Oscillator
  modulator : Oscillator
  params : List (String × ℝ)

/-- Association-list update mirroring a Python dict assignment. -/
def paramStore (ps : List (String × ℝ)) (name : String) (value : ℝ) :
    List (String × ℝ) :=
  (name, value) :: ps.filter (fun p => p.1 ≠ name)

/-- ExoticSynth.set_param: pitch retunes the carrier only; metal sets
the modulator from the current carrier frequency and the ratio derived
from the value. -/
def exoticSetParam (s : ExoticSynth) (name : String) (value : ℝ) :
    ExoticSynth :=
  let s0 := { s with params := paramStore s.params name value }
  if name = "pitch" then
    { s0 with carrier :=
        { s0.carrier with freq := 110 * (2 : ℝ) ^ (value * 3) } }
  else if name = "metal" then
    { s0 with modulator :=
        { s0.modulator with freq := s0.carrier.freq * (1 + value * 5.5) } }
  else s0

/-- ExoticSynth.generate: ring modulation, carrier times modulator, dual
mono, master gain. -/
def exoticGenerate (s : ExoticSynth) (n : ℕ) :
    Option (List (ℝ × ℝ) × ExoticSynth) :=
  (oscNext s.carrier n).bind fun rc =>
    (oscNext s.modulator n).map fun rm =>
      let sig := List.zipWith (fun c m => c * m) rc.1 rm.1
      (sig.map (fun x => (x * s.gain, x * s.gain)),
       { s with carrier := rc.2, modulator := rm.2 })

/-- MoogSynth state (moog.py). -/
structure MoogSynth where
  sr : ℝ
  gain : ℝ
  osc1 : Oscillator
  osc2 : Oscillator
  filter : MoogFilter
  lfo : LFO
  lfoDepth : ℝ
  params : List (String × ℝ)

/-- MoogSynth.generate: mix the saw with the half-volume sub, sample the
LFO for the block, run the per-frame cutoff modulation loop (which only
rewrites the stored cutoff), reset the cutoff to its base value, run the
filter over the mix, then dual mono and master gain. -/
def moogGenerate (s : MoogSynth) (n : ℕ) : Option (List (ℝ × ℝ) × MoogSynth) :=
  (oscNext s.osc1 n).bind fun r1 =>
    (oscNext s.osc2 n).bind fun r2 =>
      (lfoGenerate s.lfo n).map fun rl =>
        let sig := List.zipWith (fun a b => (a + 0.5 * b) * 0.7) r1.1 r2.1
        let base := s.filter.cutoff
        let fMod := rl.1.foldl
          (fun f v => setCutoff f (base * (1 + (v - 0.5) * s.lfoDepth)))
          s.filter
        let fReset := setCutoff fMod base
        let pr := filterProcess fReset sig
        (pr.1.map (fun x => (x * s.gain, x * s.gain)),
         { s with osc1 := r1.2, osc2 := r2.2, lfo := rl.2, filter := pr.2 })

/-- CustomDrawSynth state (custom_draw.py). -/
structure CustomDrawSynth where
  sr : ℝ
  gain : ℝ
  wavetable : List ℝ
  phase : ℝ
  freq : ℝ
  envelope : Envelope
  params : List (String × ℝ)

/-- CustomDrawSynth.set_wavetable: a missing or empty table is ignored;
a non-empty table replaces the stored one, clipped elementwise to the
legal sample range. -/
def setWavetable (s : CustomDrawSynth) (table : Option (List ℝ)) :
    CustomDrawSynth :=
  match table with
  | none => s
  | some t =>
    if t.length > 0 then { s with wavetable := t.map clip1 } else s

/-- CustomDrawSynth.set_adsr: a missing or empty dict is ignored; a
non-empty dict sets every ADSR field, falling back to the constructor
defaults for absent keys. -/
def setAdsr (s : CustomDrawSynth) (d : Option (List (String × ℝ))) :
    CustomDrawSynth :=
  match d with
  | none => s
  | some kv =>
    if kv = [] then s
    else
      { s with envelope :=
          { s.envelope with
              attack := ((kv.lookup "attack").getD 0.01),
              decay := ((kv.lookup "decay").getD 0.1),
              sustain := ((kv.lookup "sustain").getD 0.7),
              release := ((kv.lookup "release").getD 0.3) } }

/-- One linear-interpolation read of the wavetable at a float index.
The Python int() truncation agrees with the floor on the nonnegative
phases the synth maintains. -/
def wtRead (w : List ℝ) (idx : ℝ) : ℝ :=
  let len : ℤ := w.length
  let idx0 : ℕ := (⌊idx⌋ % len).toNat
  let idx1 : ℕ := (idx0 + 1) % w.length
  let frac := idx - ⌊idx⌋
  w.getD idx0 0 * (1 - frac) + w.getD idx1 0 * frac

/-- The per-frame wavetable playback loop of CustomDrawSynth.generate:
read with interpolation, then advance the phase modulo the table
length. -/
def customFrames (w : List ℝ) (incr : ℝ) : ℝ → ℕ → List ℝ × ℝ
  | ph, 0 => ([], ph)
  | ph, n + 1 =>
    let sample := wtRead w ph
    let ph1 := pyMod (ph + incr) (w.length : ℝ)
    let r := customFrames w incr ph1 n
    (sample :: r.1, r.2)

/-- CustomDrawSynth.generate: wavetable playback multiplied by the
envelope, dual mono, master gain.  With an empty table and at least one
frame the index modulo in the loop body divides by zero, modelled as
none. -/
def customGenerate (s : CustomDrawSynth) (n : ℕ) :
    Option (List (ℝ × ℝ) × CustomDrawSynth) :=
  if s.wavetable.length = 0 ∧ n ≠ 0 then none
  else
    let incr := s.freq * s.wavetable.length / s.sr
    let fr := customFrames s.wavetable incr s.phase n
    let er := envGenerate s.envelope n
    let samples := List.zipWith (fun a b => a * b) fr.1 er.1
    some
      (samples.map (fun x => (x * s.gain, x * s.gain)),
       { s with phase := fr.2, envelope := er.2 })

/-- The constructor state of ChipSynth at the default sample rate. -/
def chip0 : ChipSynth where
  sr := 44100
  gain := 0.5
  osc1 := ⟨44100, 0, 110, "square"⟩
  osc2 := ⟨44100, 0, 220, "saw"⟩
  params := [("pitch", 0.5), ("timbre", 0.5), ("detune", 0), ("decay", 0.5)]

/-- The constructor state of MoogSynth at the default sample rate: the
constructor immediately clamps the cutoff to 800 and the resonance to
0.6. -/
def moog0 : MoogSynth where
  sr := 44100
  gain := 0.5
  osc1 := ⟨44100, 0, 110, "saw"⟩
  osc2 := ⟨44100, 0, 55, "saw"⟩
  filter := ⟨44100, 800, 0.6, 0, 0, 0, 0⟩
  lfo := ⟨44100, 1.5, "sine", 0⟩
  lfoDepth := 0.3
  params := [("pitch", 0.5), ("filter", 0.5), ("resonance", 0.5), ("lfo_rate", 0.3)]

/-- The constructor state of ExoticSynth. -/
def exotic0 : ExoticSynth where
  sr := 44100
  gain := 0.5
  carrier := ⟨44100, 0, 440, "sine"⟩
  modulator := ⟨44100, 0, 1200, "sine"⟩
  params := [("pitch", 0.5), ("metal", 0.5)]

/-- The constructor state of RetroSynth. -/
def retro0 : RetroSynth where
  sr := 44100
  gain := 0.5
  osc1 := ⟨44100, 0, 110, "saw"⟩
  osc2 := ⟨44100, 0, 110, "saw"⟩
  params := [("pitch", 0.5), ("detune", 0.5)]

/-- The constructor envelope of CustomDrawSynth, already triggered. -/
def env0 : Envelope where
  sr := 44100
  attack := 0.01
  decay := 0.1
  sustain := 0.7
  release := 0.3
  state := "attack"
  level := 0
  timeInState := 0

/-- A small concrete CustomDrawSynth state used by witnesses. -/
def custom0 : CustomDrawSynth where
  sr := 44100
  gain := 0.5
  wavetable := [0, 1 / 2, 0, -(1 / 2)]
  phase := 0
  freq := 220
  envelope := env0
  params := [("pitch", 0.5), ("brightness", 0.5)]

/-- A concrete filter state: the MoogSynth constructor filter. -/
def filt0 : MoogFilter where
  sr := 44100
  cutoff := 800
  resonance := 0.6
  y0 := 0
  y1 := 0
  y2 := 0
  y3 := 0

end RealModel

/-! Helper lemmas. -/

theorem clip1_bounds {α : Type} [LinearOrderedField α] (x : α) :
    -1 ≤ clip1 x ∧ clip1 x ≤ 1 :=
  ⟨le_min (le_trans (by norm_num) (le_max_right x (-1))) (by norm_num),
   min_le_right _ _⟩

theorem mixAux_raises_none {α : Type} [LinearOrderedField α]
    (frames : ℕ) (mutes : List Bool) (vols : List α) :
    ∀ (synths : List (Option (Gen α))) (i0 : ℕ) (acc : List (α × α)) (k : ℕ)
      (hk : k < synths.length),
      ¬(i0 + k < 4 ∧ mutes.getD (i0 + k) false = true) →
      chanRaises (synths.get ⟨k, hk⟩) frames →
      mixAux frames mutes vols i0 synths acc = none := by
  intro synths
  induction synths with
  | nil => intro i0 acc k hk; exact absurd hk (by simp)
  | cons slot rest ih =>
    intro i0 acc k hk hmute hraise
    cases k with
    | zero =>
      simp only [List.get] at hraise
      rw [Nat.add_zero] at hmute
      unfold mixAux
      rw [if_neg hmute]
      cases slot with
      | none => rfl
      | some g =>
        cases hg : g frames with
        | none => simp [hg]
        | some chunk =>
          have hne : chunk.length ≠ frames := hraise chunk (by simp [hg])
          simp [hg, hne]
    | succ k' =>
      have hk' : k' < rest.length := by simpa using hk
      have hmute' :
          ¬(i0 + 1 + k' < 4 ∧ mutes.getD (i0 + 1 + k') false = true) := by
        have : i0 + 1 + k' = i0 + (k' + 1) := by omega
        rw [this]; exact hmute
      have hraise' : chanRaises (rest.get ⟨k', hk'⟩) frames := by
        simpa using hraise
      unfold mixAux
      by_cases hm : i0 < 4 ∧ mutes.getD i0 false = true
      · rw [if_pos hm]; exact ih (i0 + 1) acc k' hk' hmute' hraise'
      · rw [if_neg hm]
        cases slot with
        | none => rfl
        | some g =>
          cases hg : g frames with
          | none => simp [hg]
          | some chunk =>
            by_cases hl : chunk.length = frames
            · simp only [hg, hl, if_true]
              exact ih (i0 + 1) _ k' hk' hmute' hraise'
            · simp [hg, hl]

theorem pyMod_sub_int (x y : ℝ) (k : ℤ) (hy : y ≠ 0) :
    pyMod (x - k * y) y = pyMod x y := by
  unfold pyMod
  have hdiv : (x - k * y) / y = x / y - k := by
    rw [sub_div, mul_div_assoc, div_self hy, mul_one]
  rw [hdiv, Int.floor_sub_int]
  push_cast
  ring

theorem phaseMod_sub_int (x : ℝ) (k : ℤ) :
    phaseMod (x - k * (2 * Real.pi)) = phaseMod x :=
  pyMod_sub_int x (2 * Real.pi) k (by positivity)

theorem phaseMod_eq_sub (x : ℝ) :
    ∃ k : ℤ, phaseMod x = x - k * (2 * Real.pi) :=
  ⟨⌊x / (2 * Real.pi)⌋, by unfold phaseMod pyMod; ring⟩

theorem oscSample_period (w : String) (x : ℝ) (k : ℤ) :
    oscSample w (x - k * (2 * Real.pi)) = oscSample w x := by
  unfold oscSample
  split_ifs
  · exact Real.sin_sub_int_mul_two_pi x k
  · exact congrArg npSign (Real.sin_sub_int_mul_two_pi x k)
  · have h2 : (2 * Real.pi) ≠ 0 := by positivity
    have hdiv : (x - k * (2 * Real.pi)) / (2 * Real.pi) =
        x / (2 * Real.pi) - k := by
      rw [sub_div, mul_div_assoc, div_self h2, mul_one]
    rw [hdiv,
      show (0.5 : ℝ) + (x / (2 * Real.pi) - k) =
        0.5 + x / (2 * Real.pi) - k by ring,
      Int.floor_sub_int]
    push_cast
    ring
  · rw [Real.sin_sub_int_mul_two_pi x k]
  · rfl

theorem oscNext_pos (o : Oscillator) (n : ℕ) (hn : n ≠ 0) :
    oscNext o n =
      some
        ((List.range n).map
          (fun j : ℕ =>
            oscSample o.waveform
              (o.phase + (j : ℝ) * (o.freq * 2 * Real.pi / o.sr))),
         { o with
            phase :=
              phaseMod (o.phase + n * (o.freq * 2 * Real.pi / o.sr)) }) := by
  unfold oscNext
  rw [if_neg hn,
    show o.phase + ((n : ℝ) - 1) * (o.freq * 2 * Real.pi / o.sr) +
        o.freq * 2 * Real.pi / o.sr =
      o.phase + n * (o.freq * 2 * Real.pi / o.sr) by ring]

/-! Claim theorems. -/

/-- Claim C2: for every oscillator state and block lengths of at least
one frame, the samples of next applied to n1 and then to n2 concatenate
to the samples of a single next call on n1 plus n2 frames, and the
resulting oscillator states agree (exact real arithmetic). -/
theorem oscNext_phase_continuity (o : Oscillator) (n1 n2 : ℕ)
    (h1 : 1 ≤ n1) (h2 : 1 ≤ n2) :
    oscNext o (n1 + n2) =
      (oscNext o n1).bind fun r1 =>
        (oscNext r1.2 n2).map fun r2 => (r1.1 ++ r2.1, r2.2) := by
  have e1 : n1 ≠ 0 := by omega
  have e2 : n2 ≠ 0 := by omega
  rw [oscNext_pos o n1 e1]
  rw [Option.some_bind]
  dsimp only
  rw [oscNext_pos _ n2 e2]
  rw [Option.map_some']
  rw [oscNext_pos o (n1 + n2) (by omega)]
  dsimp only
  obtain ⟨k, hk⟩ :=
    phaseMod_eq_sub (o.phase + n1 * (o.freq * 2 * Real.pi / o.sr))
  have hlist :
      (List.range (n1 + n2)).map
          (fun j : ℕ =>
            oscSample o.waveform
              (o.phase + (j : ℝ) * (o.freq * 2 * Real.pi / o.sr))) =
        (List.range n1).map
            (fun j : ℕ =>
              oscSample o.waveform
                (o.phase + (j : ℝ) * (o.freq * 2 * Real.pi / o.sr))) ++
          (List.range n2).map
            (fun j : ℕ =>
              oscSample o.waveform
                (phaseMod (o.phase + n1 * (o.freq * 2 * Real.pi / o.sr)) +
                  (j : ℝ) * (o.freq * 2 * Real.pi / o.sr))) := by
    rw [List.range_add, List.map_append, List.map_map]
    congr 1
    apply List.map_congr_left
    intro j hj
    show oscSample o.waveform
        (o.phase + ((n1 + j : ℕ) : ℝ) * (o.freq * 2 * Real.pi / o.sr)) =
      oscSample o.waveform
        (phaseMod (o.phase + n1 * (o.freq * 2 * Real.pi / o.sr)) +
          j * (o.freq * 2 * Real.pi / o.sr))
    rw [hk,
      show o.phase + ↑n1 * (o.freq * 2 * Real.pi / o.sr) - ↑k * (2 * Real.pi) +
          ↑j * (o.freq * 2 * Real.pi / o.sr) =
        o.phase + ((n1 + j : ℕ) : ℝ) * (o.freq * 2 * Real.pi / o.sr) -
          ↑k * (2 * Real.pi) by push_cast; ring,
      oscSample_period]
  have hphase :
      phaseMod
          (phaseMod (o.phase + n1 * (o.freq * 2 * Real.pi / o.sr)) +
            n2 * (o.freq * 2 * Real.pi / o.sr)) =
        phaseMod (o.phase + ((n1 + n2 : ℕ) : ℝ) * (o.freq * 2 * Real.pi / o.sr)) := by
    rw [hk,
      show o.phase + ↑n1 * (o.freq * 2 * Real.pi / o.sr) - ↑k * (2 * Real.pi) +
          ↑n2 * (o.freq * 2 * Real.pi / o.sr) =
        o.phase + ((n1 + n2 : ℕ) : ℝ) * (o.freq * 2 * Real.pi / o.sr) -
          ↑k * (2 * Real.pi) by push_cast; ring,
      phaseMod_sub_int]
  rw [hlist, hphase]

theorem lfoGenerate_pos (l : LFO) (n : ℕ) (hn : n ≠ 0) :
    lfoGenerate l n =
      some
        ((List.range n).map
          (fun j : ℕ =>
            lfoSample l.waveform
              (l.phase + (j : ℝ) * (l.rate / l.sr) * (2 * Real.pi))),
         { l with
            phase :=
              phaseMod (l.phase + n * (l.rate / l.sr) * (2 * Real.pi)) }) := by
  unfold lfoGenerate
  rw [if_neg hn,
    show l.phase + ((n : ℝ) - 1) * (l.rate / l.sr) * (2 * Real.pi) +
        l.rate / l.sr * (2 * Real.pi) =
      l.phase + n * (l.rate / l.sr) * (2 * Real.pi) by ring]

theorem filterRun_length (g : ℝ) (f : MoogFilter) (xs : List ℝ) :
    (filterRun g f xs).1.length = xs.length := by
  induction xs generalizing f with
  | nil => rfl
  | cons x xs ih => simp [filterRun, ih]

theorem envGenerate_length (e : Envelope) (n : ℕ) :
    (envGenerate e n).1.length = n := by
  induction n generalizing e with
  | zero => rfl
  | succ n ih => simp [envGenerate, ih]

theorem customFrames_length (w : List ℝ) (incr : ℝ) (ph : ℝ) (n : ℕ) :
    (customFrames w incr ph n).1.length = n := by
  induction n generalizing ph with
  | zero => rfl
  | succ n ih => simp [customFrames, ih]

/-- Witness for claim C2 at a concrete sine oscillator and two
one-frame blocks. -/
theorem oscNext_phase_continuity_witness :
    1 ≤ 1 ∧
      oscNext (Oscillator.mk 44100 0 440 "sine") (1 + 1) =
        ((oscNext (Oscillator.mk 44100 0 440 "sine") 1).bind fun r1 =>
          (oscNext r1.2 1).map fun r2 => (r1.1 ++ r2.1, r2.2)) :=
  ⟨le_refl 1,
   oscNext_phase_continuity (Oscillator.mk 44100 0 440 "sine") 1 1
     (le_refl 1) (le_refl 1)⟩

/-- Claim C6: when the global mute flag is off and toggle_global_mute is
called, the next callback writes an all-zero output buffer and an
all-zero visualization buffer, whatever the voices, channel mutes,
channel volumes and master volume are, and whether or not the lock is
available. -/
theorem global_mute_silences_callback {α : Type} [LinearOrderedField α]
    (e : AudioEngine α) (frames : ℕ) (lock : Bool)
    (h : e.globalMute = false) :
    callback lock (toggleGlobalMute e) frames =
      (List.replicate frames (0, 0), List.replicate (min frames 512) 0) := by
  simp [callback, toggleGlobalMute, h]

/-- Witness for claim C6 at a concrete rational engine state with an
active voice. -/
theorem global_mute_silences_callback_witness :
    eLive.globalMute = false ∧
      callback true (toggleGlobalMute eLive) 3 =
        (List.replicate 3 ((0 : ℚ), 0), List.replicate 3 0) :=
  ⟨rfl, global_mute_silences_callback eLive 3 true rfl⟩

/-- Claim C1 (amended): an exception raised by a generate call inside
the callback never escapes the callback, but it aborts the whole mixing
pass, so the output buffer stays all zero for every channel (not only
the raising one) and the visualization buffer keeps its previous
contents. -/
theorem generate_error_silences_block {α : Type} [LinearOrderedField α]
    (e : AudioEngine α) (frames k : ℕ)
    (hg : e.globalMute = false)
    (hk : k < e.activeSynths.length)
    (hmute : ¬(k < 4 ∧ e.mutes.getD k false = true))
    (hraise : chanRaises (e.activeSynths.get ⟨k, hk⟩) frames) :
    callback true e frames = (List.replicate frames (0, 0), e.vizBuffer) := by
  have hnone :=
    mixAux_raises_none frames e.mutes e.vols e.activeSynths 0
      (List.replicate frames (0, 0)) k hk (by simpa using hmute) hraise
  simp only [callback, hg, hnone]
  simp

/-- Witness for the amended claim C1: a healthy voice on channel 0 and a
raising voice on channel 1. -/
theorem generate_error_silences_block_witness :
    eBad.globalMute = false ∧
      callback true eBad 2 = (List.replicate 2 ((0 : ℚ), 0), [7]) :=
  ⟨rfl,
   generate_error_silences_block eBad 2 1 rfl (by simp [eBad])
     (by simp [eBad]) (by intro chunk h; simp [eBad, badGen] at h)⟩

/-- Claim C1 counterexample: with the healthy half-amplitude voice on
channel 0 and a raising voice on channel 1, the claim predicts that the
output buffer holds the volume-scaled channel-0 signal, which after
master gain and clipping is 2/5 per sample; the code instead leaves the
whole buffer at zero. -/
theorem generate_error_counterexample :
    (callback true eBad 1).1 = [((0 : ℚ), 0)] ∧
      clip1 ((1 / 2 : ℚ) * 1 * (4 / 5)) ≠ 0 := by
  constructor
  · rfl
  · norm_num [clip1]

theorem envStep_params (e : Envelope) :
    (envStep e).sr = e.sr ∧ (envStep e).attack = e.attack ∧
      (envStep e).decay = e.decay ∧ (envStep e).sustain = e.sustain ∧
      (envStep e).release = e.release := by
  simp only [envStep]
  split_ifs <;> exact ⟨rfl, rfl, rfl, rfl, rfl⟩

theorem envStep_level_bounds (e : Envelope) (hsr : 0 < e.sr)
    (hs0 : 0 ≤ e.sustain) (hs1 : e.sustain ≤ 1)
    (hl0 : 0 ≤ e.level) (hl1 : e.level ≤ 1) :
    0 ≤ (envStep e).level ∧ (envStep e).level ≤ 1 := by
  have hdt : 0 < 1 / e.sr := by positivity
  have hma : (0 : ℝ) < max e.attack 0.001 :=
    lt_of_lt_of_le (by norm_num) (le_max_right _ _)
  have hmd : (0 : ℝ) < max e.decay 0.001 :=
    lt_of_lt_of_le (by norm_num) (le_max_right _ _)
  have hmr : (0 : ℝ) < max e.release 0.001 :=
    lt_of_lt_of_le (by norm_num) (le_max_right _ _)
  have hda : 0 < 1 / e.sr / max e.attack 0.001 := by positivity
  have hdd : 0 ≤ 1 / e.sr / max e.decay 0.001 * (1 - e.sustain) :=
    mul_nonneg (by positivity) (by linarith)
  have hdr : 0 ≤ 1 / e.sr / max e.release 0.001 * e.sustain :=
    mul_nonneg (by positivity) hs0
  simp only [envStep]
  split_ifs with h1 h2 h3 h4 h5 h6 h7 <;> constructor <;>
    (try dsimp only) <;> linarith

theorem envStep_attack_mono (e : Envelope) (hsr : 0 < e.sr)
    (hl1 : e.level ≤ 1) (hst : e.state = "attack") :
    e.level ≤ (envStep e).level := by
  have hma : (0 : ℝ) < max e.attack 0.001 :=
    lt_of_lt_of_le (by norm_num) (le_max_right _ _)
  have hda : 0 < 1 / e.sr / max e.attack 0.001 := by positivity
  simp only [envStep, hst]
  split_ifs with h1 h2 <;> (try dsimp only) <;> linarith

theorem envStep_stay_decay_above (e : Envelope) (hst : e.state = "decay")
    (hst2 : (envStep e).state = "decay") :
    e.sustain < (envStep e).level := by
  simp only [envStep, hst] at hst2 ⊢
  split_ifs at hst2 ⊢ with h1 h2 <;> first | linarith | simp_all

theorem envStep_from_decay_above (e : Envelope) (hsr : 0 < e.sr)
    (hs1 : e.sustain ≤ 1) (habove : e.sustain ≤ e.level)
    (hst : e.state = "decay") :
    (envStep e).level ≤ e.level := by
  have hmd : (0 : ℝ) < max e.decay 0.001 :=
    lt_of_lt_of_le (by norm_num) (le_max_right _ _)
  have hdd : 0 ≤ 1 / e.sr / max e.decay 0.001 * (1 - e.sustain) :=
    mul_nonneg (by positivity) (by linarith)
  simp only [envStep, hst]
  split_ifs with h1 h2 <;> first | linarith | simp at h1

theorem envStep_release_mono (e : Envelope) (hsr : 0 < e.sr)
    (hs0 : 0 ≤ e.sustain) (hl0 : 0 ≤ e.level) (hst : e.state = "release") :
    (envStep e).level ≤ e.level := by
  have hmr : (0 : ℝ) < max e.release 0.001 :=
    lt_of_lt_of_le (by norm_num) (le_max_right _ _)
  have hdr : 0 ≤ 1 / e.sr / max e.release 0.001 * e.sustain :=
    mul_nonneg (by positivity) hs0
  simp only [envStep, hst]
  split_ifs with h1 h2 h3 h4 <;> first | linarith | simp_all

theorem envIter_inv (e : Envelope) (hsr : 0 < e.sr)
    (hs0 : 0 ≤ e.sustain) (hs1 : e.sustain ≤ 1)
    (hl0 : 0 ≤ e.level) (hl1 : e.level ≤ 1) :
    ∀ i, (envStep^[i] e).sr = e.sr ∧ (envStep^[i] e).sustain = e.sustain ∧
      0 ≤ (envStep^[i] e).level ∧ (envStep^[i] e).level ≤ 1 := by
  intro i
  induction i with
  | zero => exact ⟨rfl, rfl, hl0, hl1⟩
  | succ i ih =>
    obtain ⟨h1, h2, h3, h4⟩ := ih
    obtain ⟨p1, _, _, p4, _⟩ := envStep_params (envStep^[i] e)
    rw [Function.iterate_succ_apply']
    refine ⟨by rw [p1, h1], by rw [p4, h2], ?_⟩
    exact envStep_level_bounds (envStep^[i] e) (by rw [h1]; exact hsr)
      (by rw [h2]; exact hs0) (by rw [h2]; exact hs1) h3 h4

theorem envGenerate_getD (n : ℕ) :
    ∀ (e : Envelope) (i : ℕ), i < n →
      (envGenerate e n).1.getD i 0 = (envStep^[i + 1] e).level := by
  induction n with
  | zero => intro e i hi; omega
  | succ n ih =>
    intro e i hi
    cases i with
    | zero => simp [envGenerate, Function.iterate_one]
    | succ i =>
      have hi' : i < n := by omega
      simp only [envGenerate, List.getD_cons_succ]
      rw [ih (envStep e) i hi', ← Function.iterate_succ_apply]

theorem envGenerate_mem_bounds (n : ℕ) :
    ∀ (e : Envelope), 0 < e.sr → 0 ≤ e.sustain → e.sustain ≤ 1 →
      0 ≤ e.level → e.level ≤ 1 →
      ∀ x ∈ (envGenerate e n).1, 0 ≤ x ∧ x ≤ 1 := by
  induction n with
  | zero => intro e _ _ _ _ _ x hx; simp [envGenerate] at hx
  | succ n ih =>
    intro e hsr hs0 hs1 hl0 hl1 x hx
    simp only [envGenerate, List.mem_cons] at hx
    obtain ⟨b0, b1⟩ := envStep_level_bounds e hsr hs0 hs1 hl0 hl1
    obtain ⟨p1, _, _, p4, _⟩ := envStep_params e
    rcases hx with h | h
    · subst h; exact ⟨b0, b1⟩
    · exact ih (envStep e) (by rw [p1]; exact hsr) (by rw [p4]; exact hs0)
        (by rw [p4]; exact hs1) b0 b1 x h

/-- Claim C4: for an envelope state with positive attack, decay and
release, sustain and level in the unit interval (and a positive sample
rate), every sample produced by generate lies in the unit interval;
over consecutive samples whose driving state stays attack the levels
are non-decreasing, and over consecutive samples whose driving state
stays decay or release the levels are non-increasing. -/
theorem envelope_range_monotone (e : Envelope) (hsr : 0 < e.sr)
    (ha : 0 < e.attack) (hd : 0 < e.decay) (hr : 0 < e.release)
    (hs0 : 0 ≤ e.sustain) (hs1 : e.sustain ≤ 1)
    (hl0 : 0 ≤ e.level) (hl1 : e.level ≤ 1) :
    (∀ n, ∀ x ∈ (envGenerate e n).1, 0 ≤ x ∧ x ≤ 1) ∧
    (∀ n i, i + 1 < n → (envStep^[i] e).state = "attack" →
      (envStep^[i + 1] e).state = "attack" →
      (envGenerate e n).1.getD i 0 ≤ (envGenerate e n).1.getD (i + 1) 0) ∧
    (∀ n i, i + 1 < n → (envStep^[i] e).state = "decay" →
      (envStep^[i + 1] e).state = "decay" →
      (envGenerate e n).1.getD (i + 1) 0 ≤ (envGenerate e n).1.getD i 0) ∧
    (∀ n i, i + 1 < n → (envStep^[i] e).state = "release" →
      (envStep^[i + 1] e).state = "release" →
      (envGenerate e n).1.getD (i + 1) 0 ≤ (envGenerate e n).1.getD i 0) := by
  have hinv := envIter_inv e hsr hs0 hs1 hl0 hl1
  refine ⟨fun n => envGenerate_mem_bounds n e hsr hs0 hs1 hl0 hl1, ?_, ?_, ?_⟩
  · intro n i hi _ hst2
    obtain ⟨q1, q2, q3, q4⟩ := hinv (i + 1)
    have hout1 : (envGenerate e n).1.getD i 0 = (envStep^[i + 1] e).level :=
      envGenerate_getD n e i (by omega)
    have hout2 : (envGenerate e n).1.getD (i + 1) 0 =
        (envStep (envStep^[i + 1] e)).level := by
      rw [envGenerate_getD n e (i + 1) hi,
        Function.iterate_succ_apply' envStep (i + 1) e]
    rw [hout1, hout2]
    exact envStep_attack_mono (envStep^[i + 1] e) (by rw [q1]; exact hsr)
      q4 hst2
  · intro n i hi hst1 hst2
    obtain ⟨q1, q2, q3, q4⟩ := hinv (i + 1)
    have hstep : envStep^[i + 1] e = envStep (envStep^[i] e) :=
      Function.iterate_succ_apply' envStep i e
    have habove : (envStep^[i + 1] e).sustain ≤ (envStep^[i + 1] e).level := by
      rw [hstep]
      obtain ⟨_, _, _, p4, _⟩ := envStep_params (envStep^[i] e)
      rw [p4]
      exact le_of_lt
        (envStep_stay_decay_above (envStep^[i] e) hst1
          (by rw [← hstep]; exact hst2))
    have hout1 : (envGenerate e n).1.getD i 0 = (envStep^[i + 1] e).level :=
      envGenerate_getD n e i (by omega)
    have hout2 : (envGenerate e n).1.getD (i + 1) 0 =
        (envStep (envStep^[i + 1] e)).level := by
      rw [envGenerate_getD n e (i + 1) hi,
        Function.iterate_succ_apply' envStep (i + 1) e]
    rw [hout1, hout2]
    exact envStep_from_decay_above (envStep^[i + 1] e) (by rw [q1]; exact hsr)
      (by rw [q2]; exact hs1) habove hst2
  · intro n i hi _ hst2
    obtain ⟨q1, q2, q3, q4⟩ := hinv (i + 1)
    have hout1 : (envGenerate e n).1.getD i 0 = (envStep^[i + 1] e).level :=
      envGenerate_getD n e i (by omega)
    have hout2 : (envGenerate e n).1.getD (i + 1) 0 =
        (envStep (envStep^[i + 1] e)).level := by
      rw [envGenerate_getD n e (i + 1) hi,
        Function.iterate_succ_apply' envStep (i + 1) e]
    rw [hout1, hout2]
    exact envStep_release_mono (envStep^[i + 1] e) (by rw [q1]; exact hsr)
      (by rw [q2]; exact hs0) q3 hst2

/-- Witness for claim C4 at the constructor envelope just after
trigger: the first two generated attack samples are non-decreasing. -/
theorem envelope_range_monotone_witness :
    0 < (44100 : ℝ) ∧
      (envGenerate env0 2).1.getD 0 0 ≤ (envGenerate env0 2).1.getD 1 0 := by
  refine ⟨by norm_num, ?_⟩
  have hmax : max (0.01 : ℝ) 0.001 = 0.01 := max_eq_left (by norm_num)
  have h0 : (envStep^[0] env0).state = "attack" := rfl
  have h1 : (envStep^[1] env0).state = "attack" := by
    rw [Function.iterate_one]
    simp only [envStep, env0, hmax]
    norm_num
  exact (envelope_range_monotone env0 (by norm_num [env0]) (by norm_num [env0])
    (by norm_num [env0]) (by norm_num [env0]) (by norm_num [env0])
    (by norm_num [env0]) (by norm_num [env0]) (by norm_num [env0])).2.1
    2 0 (by norm_num) h0 h1

/-- Claim C3 (amended): for every voice variant and every block length
of at least one frame, generate returns normally with exactly that many
stereo frames (the wavetable voice additionally needs its invariant
non-empty table).  At zero frames the oscillator-based voices raise
instead of returning an empty block; see the counterexample. -/
theorem generate_block_shape :
    (∀ (s : ChipSynth) (n : ℕ), 1 ≤ n →
      ∃ r, chipGenerate s n = some r ∧ r.1.length = n) ∧
    (∀ (s : RetroSynth) (n : ℕ), 1 ≤ n →
      ∃ r, retroGenerate s n = some r ∧ r.1.length = n) ∧
    (∀ (s : ExoticSynth) (n : ℕ), 1 ≤ n →
      ∃ r, exoticGenerate s n = some r ∧ r.1.length = n) ∧
    (∀ (s : MoogSynth) (n : ℕ), 1 ≤ n →
      ∃ r, moogGenerate s n = some r ∧ r.1.length = n) ∧
    (∀ (s : CustomDrawSynth) (n : ℕ), 1 ≤ n → s.wavetable ≠ [] →
      ∃ r, customGenerate s n = some r ∧ r.1.length = n) := by
  refine ⟨?_, ?_, ?_, ?_, ?_⟩
  · intro s n hn
    have e : n ≠ 0 := by omega
    unfold chipGenerate
    rw [oscNext_pos s.osc1 n e, Option.some_bind]
    dsimp only
    rw [oscNext_pos s.osc2 n e, Option.map_some']
    exact ⟨_, rfl, by simp⟩
  · intro s n hn
    have e : n ≠ 0 := by omega
    unfold retroGenerate
    rw [oscNext_pos s.osc1 n e, Option.some_bind]
    dsimp only
    rw [oscNext_pos s.osc2 n e, Option.map_some']
    exact ⟨_, rfl, by simp⟩
  · intro s n hn
    have e : n ≠ 0 := by omega
    unfold exoticGenerate
    rw [oscNext_pos s.carrier n e, Option.some_bind]
    dsimp only
    rw [oscNext_pos s.modulator n e, Option.map_some']
    exact ⟨_, rfl, by simp⟩
  · intro s n hn
    have e : n ≠ 0 := by omega
    unfold moogGenerate
    rw [oscNext_pos s.osc1 n e, Option.some_bind]
    dsimp only
    rw [oscNext_pos s.osc2 n e, Option.some_bind]
    dsimp only
    rw [lfoGenerate_pos s.lfo n e, Option.map_some']
    refine ⟨_, rfl, ?_⟩
    simp [filterProcess, filterRun_length]
  · intro s n hn htab
    have e : ¬(s.wavetable.length = 0 ∧ n ≠ 0) := by
      intro h
      exact htab (List.length_eq_zero.mp h.1)
    unfold customGenerate
    rw [if_neg e]
    refine ⟨_, rfl, ?_⟩
    simp [customFrames_length, envGenerate_length]

/-- Witness for the amended claim C3: the chip voice at its constructor
state generates a one-frame stereo block. -/
theorem generate_block_shape_witness :
    1 ≤ 1 ∧ ∃ r, chipGenerate chip0 1 = some r ∧ r.1.length = 1 :=
  ⟨le_refl 1, generate_block_shape.1 chip0 1 (le_refl 1)⟩

/-- Claim C3 counterexample: at zero frames Oscillator.next reads the
last element of an empty array and raises IndexError instead of
returning an empty sequence, and ChipSynth.generate propagates that
raise; the claim asserts a normal return for n = 0. -/
theorem generate_zero_frames_counterexample :
    oscNext chip0.osc1 0 = none ∧ chipGenerate chip0 0 = none :=
  ⟨rfl, rfl⟩

theorem abs_tanh_le_one (x : ℝ) : |Real.tanh x| ≤ 1 := by
  rw [abs_le]
  constructor
  · rw [Real.tanh_eq_sinh_div_cosh, le_div_iff (Real.cosh_pos x)]
    have h := Real.sinh_lt_cosh (-x)
    rw [Real.sinh_neg, Real.cosh_neg] at h
    linarith
  · rw [Real.tanh_eq_sinh_div_cosh, div_le_one (Real.cosh_pos x)]
    exact (Real.sinh_lt_cosh x).le

theorem convex_step_abs_le (g a b : ℝ) (hg0 : 0 ≤ g) (hg1 : g ≤ 1)
    (ha : |a| ≤ 1) (hb : |b| ≤ 1) : |a + g * (b - a)| ≤ 1 := by
  rw [abs_le] at ha hb ⊢
  constructor
  · nlinarith [mul_nonneg (sub_nonneg.mpr hg1) (by linarith : (0 : ℝ) ≤ a + 1),
      mul_nonneg hg0 (by linarith : (0 : ℝ) ≤ b + 1)]
  · nlinarith [mul_nonneg (sub_nonneg.mpr hg1) (by linarith : (0 : ℝ) ≤ 1 - a),
      mul_nonneg hg0 (by linarith : (0 : ℝ) ≤ 1 - b)]

theorem filterStep_bounds (g x : ℝ) (f : MoogFilter)
    (hg0 : 0 ≤ g) (hg1 : g ≤ 1)
    (h0 : |f.y0| ≤ 1) (h1 : |f.y1| ≤ 1) (h2 : |f.y2| ≤ 1) (h3 : |f.y3| ≤ 1) :
    |(filterStep g f x).y0| ≤ 1 ∧ |(filterStep g f x).y1| ≤ 1 ∧
      |(filterStep g f x).y2| ≤ 1 ∧ |(filterStep g f x).y3| ≤ 1 := by
  have b0 := convex_step_abs_le g f.y0
    (Real.tanh (x - f.resonance * 4 * f.y3)) hg0 hg1 h0 (abs_tanh_le_one _)
  have b1 := convex_step_abs_le g f.y1 _ hg0 hg1 h1 b0
  have b2 := convex_step_abs_le g f.y2 _ hg0 hg1 h2 b1
  have b3 := convex_step_abs_le g f.y3 _ hg0 hg1 h3 b2
  exact ⟨b0, b1, b2, b3⟩

theorem filterRun_bounds (g : ℝ) (hg0 : 0 ≤ g) (hg1 : g ≤ 1) :
    ∀ (xs : List ℝ) (f : MoogFilter),
      |f.y0| ≤ 1 → |f.y1| ≤ 1 → |f.y2| ≤ 1 → |f.y3| ≤ 1 →
      (∀ y ∈ (filterRun g f xs).1, |y| ≤ 1) ∧
        |(filterRun g f xs).2.y0| ≤ 1 ∧ |(filterRun g f xs).2.y1| ≤ 1 ∧
        |(filterRun g f xs).2.y2| ≤ 1 ∧ |(filterRun g f xs).2.y3| ≤ 1 := by
  intro xs
  induction xs with
  | nil =>
    intro f h0 h1 h2 h3
    exact ⟨by simp [filterRun], h0, h1, h2, h3⟩
  | cons x xs ih =>
    intro f h0 h1 h2 h3
    obtain ⟨b0, b1, b2, b3⟩ := filterStep_bounds g x f hg0 hg1 h0 h1 h2 h3
    obtain ⟨hmem, c0, c1, c2, c3⟩ := ih (filterStep g f x) b0 b1 b2 b3
    refine ⟨?_, ?_, ?_, ?_, ?_⟩
    · intro y hy
      simp only [filterRun, List.mem_cons] at hy
      rcases hy with h | h
      · subst h; exact b3
      · exact hmem y h
    · simp only [filterRun]; exact c0
    · simp only [filterRun]; exact c1
    · simp only [filterRun]; exact c2
    · simp only [filterRun]; exact c3

/-- Claim C5: with the cutoff in the clamped range enforced by
set_cutoff, the resonance in the clamped range enforced by
set_resonance, inputs bounded by one in magnitude and the stages
starting in the unit ball (in particular all zero), every output sample
of process and every internal stage stays bounded by one in magnitude,
for arbitrarily long input. -/
theorem filter_stability (f : MoogFilter) (xs : List ℝ)
    (hsr : 0 < f.sr) (hc1 : 20 ≤ f.cutoff) (hc2 : f.cutoff ≤ f.sr * 0.49)
    (hr0 : 0 ≤ f.resonance) (hr1 : f.resonance ≤ 0.95)
    (hin : ∀ x ∈ xs, |x| ≤ 1)
    (h0 : |f.y0| ≤ 1) (h1 : |f.y1| ≤ 1) (h2 : |f.y2| ≤ 1) (h3 : |f.y3| ≤ 1) :
    (∀ y ∈ (filterProcess f xs).1, |y| ≤ 1) ∧
      |(filterProcess f xs).2.y0| ≤ 1 ∧ |(filterProcess f xs).2.y1| ≤ 1 ∧
      |(filterProcess f xs).2.y2| ≤ 1 ∧ |(filterProcess f xs).2.y3| ≤ 1 := by
  have hg0 : 0 ≤ f.cutoff / f.sr * 1.8 := by positivity
  have hdiv : f.cutoff / f.sr ≤ 0.49 := by
    rw [div_le_iff hsr]
    linarith
  have hg1 : f.cutoff / f.sr * 1.8 ≤ 1 := by linarith
  exact filterRun_bounds _ hg0 hg1 xs f h0 h1 h2 h3

/-- Witness for claim C5 at the MoogSynth constructor filter and a
two-sample full-scale input. -/
theorem filter_stability_witness :
    (0 : ℝ) < filt0.sr ∧ ∀ y ∈ (filterProcess filt0 [1, -1]).1, |y| ≤ 1 :=
  ⟨by norm_num [filt0],
   (filter_stability filt0 [1, -1] (by norm_num [filt0]) (by norm_num [filt0])
      (by norm_num [filt0]) (by norm_num [filt0]) (by norm_num [filt0])
      (by intro x hx; fin_cases hx <;> norm_num)
      (by norm_num [filt0]) (by norm_num [filt0]) (by norm_num [filt0])
      (by norm_num [filt0])).1⟩

theorem foldl_setCutoff_reset (a d b : ℝ) :
    ∀ (l : List ℝ) (f : MoogFilter),
      setCutoff
          (l.foldl (fun fa v => setCutoff fa (a * (1 + (v - 0.5) * d))) f) b =
        setCutoff f b := by
  intro l
  induction l with
  | nil => intro f; rfl
  | cons v l ih =>
    intro f
    rw [List.foldl_cons, ih]
    rfl

theorem foldl_setCutoff_reset_cutoff (a d b : ℝ) (l : List ℝ) (f : MoogFilter) :
    (setCutoff
        (l.foldl (fun fa v => setCutoff fa (a * (1 + (v - 0.5) * d))) f)
        b).cutoff =
      max 20 (min b (f.sr * 0.49)) := by
  rw [foldl_setCutoff_reset a d b l f]
  rfl

theorem filterRun_cutoff (g : ℝ) : ∀ (xs : List ℝ) (f : MoogFilter),
    (filterRun g f xs).2.cutoff = f.cutoff := by
  intro xs
  induction xs with
  | nil => intro f; rfl
  | cons x xs ih =>
    intro f
    simp only [filterRun]
    rw [ih]
    rfl

/-- Claim C7 (documenting the code bug): the audio produced by
MoogSynth.generate does not depend on the LFO phase at all, because the
per-frame cutoff modulation loop only rewrites the stored cutoff and the
cutoff is reset to its base value before process runs; the claimed
per-frame modulated filtering never happens.  The restore half of the
claim does hold: after generate the filter cutoff equals its base
value. -/
theorem moog_lfo_modulation_dead (s : MoogSynth) (n : ℕ) (hn : 1 ≤ n)
    (hc1 : 20 ≤ s.filter.cutoff)
    (hc2 : s.filter.cutoff ≤ s.filter.sr * 0.49) :
    (∀ p1 p2 : ℝ,
      (moogGenerate { s with lfo := { s.lfo with phase := p1 } } n).map
          (fun r => r.1) =
        (moogGenerate { s with lfo := { s.lfo with phase := p2 } } n).map
          (fun r => r.1)) ∧
    (∃ r, moogGenerate s n = some r ∧
      r.2.filter.cutoff = s.filter.cutoff) := by
  have e : n ≠ 0 := by omega
  constructor
  · intro p1 p2
    unfold moogGenerate
    dsimp only
    rw [oscNext_pos s.osc1 n e, oscNext_pos s.osc2 n e,
      lfoGenerate_pos { s.lfo with phase := p1 } n e,
      lfoGenerate_pos { s.lfo with phase := p2 } n e]
    simp only [Option.some_bind, Option.map_some']
    try dsimp only
    rw [foldl_setCutoff_reset, foldl_setCutoff_reset]
  · unfold moogGenerate
    rw [oscNext_pos s.osc1 n e]
    simp only [Option.some_bind]
    try dsimp only
    rw [oscNext_pos s.osc2 n e]
    simp only [Option.some_bind]
    try dsimp only
    rw [lfoGenerate_pos s.lfo n e]
    simp only [Option.map_some']
    try dsimp only
    refine ⟨_, rfl, ?_⟩
    dsimp only
    show (filterRun _ _ _).2.cutoff = s.filter.cutoff
    rw [filterRun_cutoff, foldl_setCutoff_reset_cutoff,
      min_eq_left hc2, max_eq_right hc1]

/-- Witness for claim C7 at the MoogSynth constructor state: one frame,
LFO phases 0 and 1 produce identical audio, and the cutoff is
restored. -/
theorem moog_lfo_modulation_dead_witness :
    (20 : ℝ) ≤ moog0.filter.cutoff ∧
      ((moogGenerate { moog0 with lfo := { moog0.lfo with phase := 0 } } 1).map
          (fun r => r.1) =
        (moogGenerate { moog0 with lfo := { moog0.lfo with phase := 1 } } 1).map
          (fun r => r.1)) ∧
      ∃ r, moogGenerate moog0 1 = some r ∧
        r.2.filter.cutoff = moog0.filter.cutoff :=
  ⟨by norm_num [moog0],
   (moog_lfo_modulation_dead moog0 1 (le_refl 1) (by norm_num [moog0])
      (by norm_num [moog0])).1 0 1,
   (moog_lfo_modulation_dead moog0 1 (le_refl 1) (by norm_num [moog0])
      (by norm_num [moog0])).2⟩

/-- Claim C8 (amended): immediately after a metal update the modulator
frequency equals the carrier frequency times the ratio derived from the
value, and that ratio lies between 1 and 6.5 for values in the unit
interval; but a later pitch update retunes only the carrier and leaves
the modulator frequency untouched, so the relation is not an invariant
of every parameter update. -/
theorem exotic_metal_ratio (s : ExoticSynth) (v : ℝ)
    (h0 : 0 ≤ v) (h1 : v ≤ 1) :
    ((exoticSetParam s "metal" v).modulator.freq =
      (exoticSetParam s "metal" v).carrier.freq * (1 + v * 5.5)) ∧
    1 ≤ 1 + v * 5.5 ∧ 1 + v * 5.5 ≤ 6.5 ∧
    ∀ w : ℝ, (exoticSetParam s "pitch" w).modulator.freq =
      s.modulator.freq := by
  refine ⟨?_, by linarith, by linarith, ?_⟩
  · simp [exoticSetParam]
  · intro w
    simp [exoticSetParam]

/-- Witness for the amended claim C8 at the constructor state with a
half metal value. -/
theorem exotic_metal_ratio_witness :
    (0 : ℝ) ≤ 1 / 2 ∧
      ((exoticSetParam exotic0 "metal" (1 / 2)).modulator.freq =
        (exoticSetParam exotic0 "metal" (1 / 2)).carrier.freq *
          (1 + 1 / 2 * 5.5)) ∧
      (exoticSetParam exotic0 "pitch" 1).modulator.freq =
        exotic0.modulator.freq :=
  ⟨by norm_num,
   (exotic_metal_ratio exotic0 (1 / 2) (by norm_num) (by norm_num)).1,
   (exotic_metal_ratio exotic0 (1 / 2) (by norm_num) (by norm_num)).2.2.2 1⟩

/-- Claim C8 counterexample: starting from the constructor state, set
metal to 0 (modulator becomes 440 Hz) and then pitch to 1 (carrier
becomes 880 Hz); the modulator stays at 440 Hz, violating the claimed
invariant modulator = carrier times ratio. -/
theorem exotic_pitch_breaks_ratio :
    (exoticSetParam (exoticSetParam exotic0 "metal" 0) "pitch"
        1).modulator.freq ≠
      (exoticSetParam (exoticSetParam exotic0 "metal" 0) "pitch"
          1).carrier.freq * (1 + 0 * 5.5) := by
  have h8 : (2 : ℝ) ^ ((1 : ℝ) * 3) = 8 := by
    rw [one_mul, show (3 : ℝ) = ((3 : ℕ) : ℝ) by norm_num, Real.rpow_natCast]
    norm_num
  simp [exoticSetParam, exotic0, h8]
  norm_num

/-- Claim C9: set_wavetable ignores a missing or empty table, replaces
the stored table with the elementwise-clipped copy of a non-empty one,
and hence keeps every stored element inside the legal sample range. -/
theorem set_wavetable_spec (s : CustomDrawSynth)
    (hs : ∀ x ∈ s.wavetable, -1 ≤ x ∧ x ≤ 1) :
    setWavetable s none = s ∧
    setWavetable s (some []) = s ∧
    (∀ t : List ℝ, t ≠ [] →
      (setWavetable s (some t)).wavetable = t.map clip1) ∧
    (∀ t : Option (List ℝ), ∀ x ∈ (setWavetable s t).wavetable,
      -1 ≤ x ∧ x ≤ 1) := by
  refine ⟨rfl, by simp [setWavetable], ?_, ?_⟩
  · intro t ht
    simp [setWavetable, List.length_pos.mpr ht]
  · intro t x hx
    cases t with
    | none => exact hs x hx
    | some t =>
      by_cases h0 : t.length > 0
      · simp only [setWavetable, h0, if_true] at hx
        rcases List.mem_map.mp hx with ⟨y, _, rfl⟩
        exact clip1_bounds y
      · simp only [setWavetable, h0, if_false] at hx
        exact hs x hx

/-- Witness for claim C9 at a concrete state: a missing table is a
no-op and an out-of-range table is stored clipped. -/
theorem set_wavetable_spec_witness :
    setWavetable custom0 none = custom0 ∧
      (setWavetable custom0 (some [2, -3])).wavetable = [2, -3].map clip1 :=
  ⟨(set_wavetable_spec custom0
      (by intro x hx; fin_cases hx <;> norm_num [custom0])).1,
   (set_wavetable_spec custom0
      (by intro x hx; fin_cases hx <;> norm_num [custom0])).2.2.1 [2, -3]
     (by simp)⟩

/-- Claim C10: set_adsr ignores a missing or empty dict; a non-empty
dict sets each ADSR field to the value under its key when present and
resets it to the constructor default otherwise, so an absent key does
not keep the previous value. -/
theorem set_adsr_spec (s : CustomDrawSynth) :
    setAdsr s none = s ∧
    setAdsr s (some []) = s ∧
    (∀ kv : List (String × ℝ), kv ≠ [] →
      (setAdsr s (some kv)).envelope.attack = (kv.lookup "attack").getD 0.01 ∧
      (setAdsr s (some kv)).envelope.decay = (kv.lookup "decay").getD 0.1 ∧
      (setAdsr s (some kv)).envelope.sustain =
        (kv.lookup "sustain").getD 0.7 ∧
      (setAdsr s (some kv)).envelope.release =
        (kv.lookup "release").getD 0.3) ∧
    (∀ kv : List (String × ℝ), kv ≠ [] → kv.lookup "attack" = none →
      (setAdsr s (some kv)).envelope.attack = 0.01) := by
  refine ⟨rfl, rfl, ?_, ?_⟩
  · intro kv hkv
    simp [setAdsr, hkv]
  · intro kv hkv hnone
    simp [setAdsr, hkv, hnone]

/-- Witness for claim C10 at a concrete state: a dict holding only the
decay key resets attack to its default 0.01 rather than keeping the
previous value. -/
theorem set_adsr_spec_witness :
    setAdsr custom0 none = custom0 ∧
      (setAdsr custom0 (some [("decay", 2)])).envelope.attack = 0.01 :=
  ⟨(set_adsr_spec custom0).1,
   (set_adsr_spec custom0).2.2.2 [("decay", 2)] (by simp) (by decide)⟩

end Cupdance
